import Mathlib

/-!
# Verification of the ALFA-TRADING backtesting engine

Shallow embedding of `src/backend/app/backtesting/engine.py` (class
`BacktestEngine`).  Prices and cash are modelled as rationals (the source
uses floats; the specification's equalities are exact arithmetic
identities), order quantities and position quantities as integers, and
timestamps as natural numbers (only their ordering and equality matter to
the engine).  Python dicts keyed by symbol are modelled as association
lists in insertion order.
-/

namespace AlfaTrading

/-- `OrderSide` enum of the source. -/
inductive OrderSide
  | buy
  | sell
deriving DecidableEq, Repr

/-- `OrderType` enum of the source. -/
inductive OrderType
  | market
  | limit
  | stop
  | stop_limit
deriving DecidableEq, Repr

/-- The `status` field of a `BacktestOrder` (`"pending"`, `"filled"`,
`"cancelled"` strings in the source). -/
inductive OrderStatus
  | pending
  | filled
  | cancelled
deriving DecidableEq, Repr

/-- One OHLCV bar, as the per-symbol `price_data` rows built in
`run_backtest`.  `open_` renders the Python key `open` (a Lean keyword). -/
structure Bar where
  open_ : ℚ
  high : ℚ
  low : ℚ
  close : ℚ
  volume : ℚ
deriving DecidableEq, Repr

/-- The `BacktestOrder` dataclass of the source. -/
structure BacktestOrder where
  timestamp : ℕ
  symbol : String
  side : OrderSide
  order_type : OrderType
  quantity : ℤ
  price : Option ℚ := none
  stop_price : Option ℚ := none
  filled_price : Option ℚ := none
  filled_quantity : ℤ := 0
  status : OrderStatus := .pending
  commission : ℚ := 0
  slippage : ℚ := 0
deriving DecidableEq, Repr

/-- The `BacktestPosition` dataclass of the source. -/
structure BacktestPosition where
  symbol : String
  quantity : ℤ
  avg_price : ℚ
  unrealized_pnl : ℚ
  realized_pnl : ℚ
  market_value : ℚ
deriving DecidableEq, Repr

/-- Association-list lookup modelling `self.positions[symbol]` /
`symbol in self.positions`. -/
def lookupPos (positions : List (String × BacktestPosition)) (symbol : String) :
    Option BacktestPosition :=
  (positions.find? (fun e => e.1 == symbol)).map Prod.snd

/-- `self.positions[symbol] = pos`: replace in place if the key exists
(keeping insertion order), else append — Python dict semantics. -/
def setPos (positions : List (String × BacktestPosition)) (symbol : String)
    (pos : BacktestPosition) : List (String × BacktestPosition) :=
  match positions with
  | [] => [(symbol, pos)]
  | e :: rest =>
    if e.1 == symbol then (symbol, pos) :: rest
    else e :: setPos rest symbol pos

/-- The `Update market value and unrealized P&L` block at the end of
`_update_position`. -/
def markRecord (position : BacktestPosition) (price : ℚ) : BacktestPosition :=
  if position.quantity ≠ 0 then
    { position with
      market_value := (position.quantity : ℚ) * price
      unrealized_pnl :=
        if 0 < position.quantity then
          (price - position.avg_price) * (position.quantity : ℚ)
        else
          (position.avg_price - price) * (|position.quantity| : ℚ) }
  else
    { position with market_value := 0, unrealized_pnl := 0 }

/-- The body of `_update_position` acting on one `BacktestPosition` record:
the buy/sell branch structure (weighted-average add, partial close, close
and flip), followed by the mark-to-market of `market_value` and
`unrealized_pnl` at the end of the method. -/
def updatePositionRecord (position : BacktestPosition) (quantity_change : ℤ)
    (price : ℚ) : BacktestPosition :=
  let position :=
    if 0 < quantity_change then  -- Buying
      if 0 ≤ position.quantity then  -- Adding to long position or starting new
        let total_cost : ℚ :=
          (position.quantity : ℚ) * position.avg_price + (quantity_change : ℚ) * price
        let q := position.quantity + quantity_change
        { position with
          quantity := q
          avg_price := if 0 < q then total_cost / (q : ℚ) else 0 }
      else if quantity_change ≤ |position.quantity| then  -- Partial cover
        { position with
          realized_pnl := position.realized_pnl +
            (position.avg_price - price) * (quantity_change : ℚ)
          quantity := position.quantity + quantity_change }
      else  -- Full cover + new long position
        { position with
          realized_pnl := position.realized_pnl +
            (position.avg_price - price) * (|position.quantity| : ℚ)
          quantity := quantity_change - |position.quantity|
          avg_price := price }
    else  -- Selling
      let qc := |quantity_change|
      if 0 < position.quantity then  -- Reducing long position
        if qc ≤ position.quantity then  -- Partial sell
          { position with
            realized_pnl := position.realized_pnl +
              (price - position.avg_price) * (qc : ℚ)
            quantity := position.quantity - qc }
        else  -- Full sell + new short position
          { position with
            realized_pnl := position.realized_pnl +
              (price - position.avg_price) * (position.quantity : ℚ)
            quantity := -(qc - position.quantity)
            avg_price := price }
      else  -- Adding to short position
        let total_cost : ℚ :=
          (|position.quantity| : ℚ) * position.avg_price + (qc : ℚ) * price
        let q := position.quantity - qc
        { position with
          quantity := q
          avg_price := if q ≠ 0 then total_cost / (|q| : ℚ) else 0 }
  markRecord position price

/-- `_update_position(symbol, quantity_change, price)` on the positions
dict: insert a zero position when the symbol is absent, then update it. -/
def update_position (positions : List (String × BacktestPosition))
    (symbol : String) (quantity_change : ℤ) (price : ℚ) :
    List (String × BacktestPosition) :=
  let pos := (lookupPos positions symbol).getD
    { symbol := symbol, quantity := 0, avg_price := 0,
      unrealized_pnl := 0, realized_pnl := 0, market_value := 0 }
  setPos positions symbol (updatePositionRecord pos quantity_change price)

/-- The execution-price stage of `_execute_order`: `MARKET` fills at
high/low adjusted by slippage; `LIMIT` fills only when the close satisfies
the limit condition; `STOP`/`STOP_LIMIT` (and a `LIMIT` without a price,
which raises `TypeError` in the source and is swallowed by the
`except`) yield no price, hence no fill. -/
def execPrice (slippage_rate : ℚ) (o : BacktestOrder)
    (current_price high_price low_price : ℚ) : Option ℚ :=
  match o.order_type with
  | .market =>
    if o.side = .buy then some (high_price * (1 + slippage_rate))
    else some (low_price * (1 - slippage_rate))
  | .limit =>
    match o.price with
    | some p =>
      if o.side = .buy then
        if current_price ≤ p then some (min p high_price) else none
      else
        if p ≤ current_price then some (max p low_price) else none
    | none => none
  | _ => none

/-- `_execute_order(order, current_price, high_price, low_price)`.
Returns `none` when the order is not filled (the source returns `False`
before mutating any state), and `some (order', capital', positions')`
with the filled order, new cash and new positions on a fill. -/
def execute_order (commission_rate slippage_rate : ℚ) (current_capital : ℚ)
    (positions : List (String × BacktestPosition)) (o : BacktestOrder)
    (current_price high_price low_price : ℚ) :
    Option (BacktestOrder × ℚ × List (String × BacktestPosition)) :=
  if o.status ≠ .pending then none
  else
    match execPrice slippage_rate o current_price high_price low_price with
    | none => none
    | some execution_price =>
      match o.side with
      | .buy =>
        let required_capital := execution_price * (o.quantity : ℚ)
        if current_capital < required_capital then none
        else
          let commission := execution_price * (o.quantity : ℚ) * commission_rate
          some ({ o with filled_price := some execution_price,
                         filled_quantity := o.quantity,
                         status := .filled,
                         commission := commission },
                current_capital - (execution_price * (o.quantity : ℚ) + commission),
                update_position positions o.symbol o.quantity execution_price)
      | .sell =>
        match lookupPos positions o.symbol with
        | none => none
        | some pos =>
          if pos.quantity < o.quantity then none
          else
            let commission := execution_price * (o.quantity : ℚ) * commission_rate
            some ({ o with filled_price := some execution_price,
                           filled_quantity := o.quantity,
                           status := .filled,
                           commission := commission },
                  current_capital + (execution_price * (o.quantity : ℚ) - commission),
                  update_position positions o.symbol (-o.quantity) execution_price)

/-- One entry of `self.equity_curve` (the dict appended by
`_update_portfolio_value`). -/
structure EquityPoint where
  timestamp : ℕ
  portfolio_value : ℚ
  cash : ℚ
  market_value : ℚ
  realized_pnl : ℚ
  unrealized_pnl : ℚ
  total_pnl : ℚ
deriving DecidableEq, Repr

/-- One symbol's entry in a `positions_history` snapshot (the five keys
recorded by `_update_portfolio_value` for non-zero positions). -/
structure PosSnap where
  quantity : ℤ
  avg_price : ℚ
  market_value : ℚ
  unrealized_pnl : ℚ
  realized_pnl : ℚ
deriving DecidableEq, Repr

/-- One entry of `self.positions_history`. -/
structure PositionsSnapshot where
  timestamp : ℕ
  positions : List (String × PosSnap)
deriving DecidableEq, Repr

/-- The `BacktestEngine` object: constructor configuration
(`initial_capital`, `commission_rate`, `slippage_rate`), the loaded
`historical_data`, and the mutable simulation state reset by
`run_backtest`. -/
structure EngineState where
  initial_capital : ℚ
  commission_rate : ℚ
  slippage_rate : ℚ
  historical_data : List (String × List (ℕ × Bar))
  current_capital : ℚ
  positions : List (String × BacktestPosition)
  orders : List BacktestOrder
  equity_curve : List EquityPoint
  positions_history : List PositionsSnapshot
  daily_returns : List ℚ
deriving DecidableEq, Repr

/-- Lookup in the `current_prices` dict. -/
def lookupPrice (prices : List (String × ℚ)) (symbol : String) : Option ℚ :=
  (prices.find? (fun e => e.1 == symbol)).map Prod.snd

/-- Lookup in the per-step `price_data` dict. -/
def lookupBar (price_data : List (String × Bar)) (symbol : String) : Option Bar :=
  (price_data.find? (fun e => e.1 == symbol)).map Prod.snd

/-- Body of the `for symbol, position in self.positions.items()` loop of
`_update_portfolio_value`: for a symbol present in `prices`, mark the
position to market and add it to the running totals
`(market_value, unrealized_pnl, realized_pnl)`; a position with zero
quantity keeps its stored `unrealized_pnl` (the source's `if/elif`
updates neither branch) but still gets `market_value = 0 * price`. -/
def markStep (prices : List (String × ℚ))
    (acc : List (String × BacktestPosition) × ℚ × ℚ × ℚ)
    (e : String × BacktestPosition) :
    List (String × BacktestPosition) × ℚ × ℚ × ℚ :=
  match lookupPrice prices e.1 with
  | some current_price =>
    let pos := e.2
    let pos := { pos with market_value := (pos.quantity : ℚ) * current_price }
    let pos :=
      if 0 < pos.quantity then
        { pos with unrealized_pnl := (current_price - pos.avg_price) * (pos.quantity : ℚ) }
      else if pos.quantity < 0 then
        { pos with unrealized_pnl := (pos.avg_price - current_price) * (|pos.quantity| : ℚ) }
      else pos
    (acc.1 ++ [(e.1, pos)], acc.2.1 + pos.market_value, acc.2.2.1 + pos.unrealized_pnl,
     acc.2.2.2 + pos.realized_pnl)
  | none => (acc.1 ++ [e], acc.2.1, acc.2.2.1, acc.2.2.2)

/-- The mark-to-market pass of `_update_portfolio_value`: the updated
positions dict together with the
`(total_market_value, total_unrealized_pnl, total_realized_pnl)`
accumulators. -/
def markTotals (s : EngineState) (prices : List (String × ℚ)) :
    List (String × BacktestPosition) × ℚ × ℚ × ℚ :=
  s.positions.foldl (markStep prices) ([], 0, 0, 0)

/-- The `EquityPoint` appended by `_update_portfolio_value`. -/
def snapshotPoint (s : EngineState) (timestamp : ℕ)
    (prices : List (String × ℚ)) : EquityPoint :=
  { timestamp := timestamp
    portfolio_value := s.current_capital + (markTotals s prices).2.1
    cash := s.current_capital
    market_value := (markTotals s prices).2.1
    realized_pnl := (markTotals s prices).2.2.2
    unrealized_pnl := (markTotals s prices).2.2.1
    total_pnl := (markTotals s prices).2.2.2 + (markTotals s prices).2.2.1 }

/-- `_update_portfolio_value(timestamp, prices)`: mark positions to
market, append one `EquityPoint` and one positions-history snapshot
(non-zero positions only), and append a daily return when the curve
already had at least one point (`len(self.equity_curve) > 1` after the
append, i.e. the old curve was non-empty; `equity_curve[-2]` is then the
old curve's last point). -/
def update_portfolio_value (s : EngineState) (timestamp : ℕ)
    (prices : List (String × ℚ)) : EngineState :=
  { s with
    positions := (markTotals s prices).1
    equity_curve := s.equity_curve ++ [snapshotPoint s timestamp prices]
    positions_history := s.positions_history ++
      [{ timestamp := timestamp
         positions := ((markTotals s prices).1.filter
            (fun e => decide (e.2.quantity ≠ 0))).map
          (fun e => (e.1,
            { quantity := e.2.quantity
              avg_price := e.2.avg_price
              market_value := e.2.market_value
              unrealized_pnl := e.2.unrealized_pnl
              realized_pnl := e.2.realized_pnl }))}]
    daily_returns :=
      match s.equity_curve.getLast? with
      | some prev =>
        s.daily_returns ++
          [if 0 < prev.portfolio_value then
             ((snapshotPoint s timestamp prices).portfolio_value -
               prev.portfolio_value) / prev.portfolio_value
           else 0]
      | none => s.daily_returns }

/-- The guard of the `for order in self.orders` loop in `run_backtest`:
`order.status == "pending" and order.symbol in price_data and
order.timestamp <= timestamp`. -/
def fillEligible (o : BacktestOrder) (ts : ℕ) (price_data : List (String × Bar)) : Bool :=
  o.status == .pending && (lookupBar price_data o.symbol).isSome &&
    decide (o.timestamp ≤ ts)

/-- The `Execute pending orders` loop of `run_backtest`: each eligible
order is attempted with `_execute_order` on its symbol's bar, threading
cash and positions left to right through the order list. -/
def executePendingOrders (commission_rate slippage_rate : ℚ) (ts : ℕ)
    (price_data : List (String × Bar)) :
    ℚ → List (String × BacktestPosition) → List BacktestOrder →
    ℚ × List (String × BacktestPosition) × List BacktestOrder
  | cap, positions, [] => (cap, positions, [])
  | cap, positions, o :: rest =>
    let next :=
      if fillEligible o ts price_data then
        match lookupBar price_data o.symbol with
        | some bar =>
          match execute_order commission_rate slippage_rate cap positions o
              bar.close bar.high bar.low with
          | some r => r
          | none => (o, cap, positions)
        | none => (o, cap, positions)
      else (o, cap, positions)
    let r := executePendingOrders commission_rate slippage_rate ts price_data
      next.2.1 next.2.2 rest
    (r.1, r.2.1, next.1 :: r.2.2)

/-- The per-timestamp `price_data` dict of `run_backtest`: for each
loaded symbol, the first row whose timestamp matches. -/
def collectBars (data : List (String × List (ℕ × Bar))) (ts : ℕ) :
    List (String × Bar) :=
  data.filterMap fun e => (e.2.find? (fun r => r.1 == ts)).map (fun r => (e.1, r.2))

/-- Arguments of one `place_order` call made by a strategy callback. -/
structure OrderRequest where
  timestamp : ℕ
  symbol : String
  side : OrderSide
  quantity : ℤ
  order_type : OrderType := .market
  price : Option ℚ := none
  stop_price : Option ℚ := none
deriving DecidableEq, Repr

/-- The `BacktestOrder` that `place_order` appends for a request:
status `pending`, nothing filled yet. -/
def mkOrder (r : OrderRequest) : BacktestOrder :=
  { timestamp := r.timestamp, symbol := r.symbol, side := r.side
    order_type := r.order_type, quantity := r.quantity
    price := r.price, stop_price := r.stop_price }

/-- `place_order`: append the new pending order to `self.orders`. -/
def place_order (s : EngineState) (r : OrderRequest) : EngineState :=
  { s with orders := s.orders ++ [mkOrder r] }

/-- A strategy callback `strategy_func(timestamp, price_data, self)`.
The engine mutations available to a callback are its `place_order`
calls; `some reqs` is the sequence of such calls made during the step,
and `none` models the callback raising an exception (which `run_backtest`
catches and logs, so the step proceeds with no orders placed). -/
def Strategy : Type :=
  ℕ → List (String × Bar) → EngineState → Option (List OrderRequest)

/-- The fill phase of one simulation step: run the pending-order loop
and store the new cash, positions and order list. -/
def fillsApplied (s : EngineState) (ts : ℕ) : EngineState :=
  let r := executePendingOrders s.commission_rate s.slippage_rate ts
    (collectBars s.historical_data ts) s.current_capital s.positions s.orders
  { s with current_capital := r.1, positions := r.2.1, orders := r.2.2 }

/-- The first two phases of one simulation step of `run_backtest`:
execute pending orders against this timestamp's bars, then
`_update_portfolio_value` with the close prices. -/
def afterFills (s : EngineState) (ts : ℕ) : EngineState :=
  update_portfolio_value (fillsApplied s ts) ts
    ((collectBars s.historical_data ts).map fun e => (e.1, e.2.close))

/-- One full simulation step: fills, equity snapshot, then the strategy
callback (whose exception, if any, is swallowed). -/
def runStep (strat : Strategy) (s : EngineState) (ts : ℕ) : EngineState :=
  let s2 := afterFills s ts
  match strat ts (collectBars s.historical_data ts) s2 with
  | none => s2
  | some reqs => reqs.foldl place_order s2

/-- Insertion into a `≤`-sorted list of timestamps. -/
def insertSorted (x : ℕ) : List ℕ → List ℕ
  | [] => [x]
  | y :: ys => if x ≤ y then x :: y :: ys else y :: insertSorted x ys

/-- `sorted(...)` on the timestamp set. -/
def sortTimestamps (l : List ℕ) : List ℕ := l.foldr insertSorted []

/-- The simulated timestamps of `run_backtest`: the union of all symbols'
timestamps, restricted to `start_date <= ts <= end_date`, sorted. -/
def simTimestamps (data : List (String × List (ℕ × Bar)))
    (start_date end_date : ℕ) : List ℕ :=
  sortTimestamps (((data.foldl (fun acc e => acc ++ e.2.map Prod.fst) []).dedup).filter
    (fun ts => decide (start_date ≤ ts) && decide (ts ≤ end_date)))

/-- The `Reset state` block at the top of `run_backtest`. -/
def resetState (s : EngineState) : EngineState :=
  { s with current_capital := s.initial_capital, positions := [], orders := []
           equity_curve := [], positions_history := [], daily_returns := [] }

/-- The main `for i, timestamp in enumerate(timestamps)` loop. -/
def runSteps (strat : Strategy) (s : EngineState) (tss : List ℕ) : EngineState :=
  tss.foldl (runStep strat) s

/-- Loop body of `_calculate_max_drawdown`: raise the peak when the
point exceeds it, then take the larger of the running maximum drawdown
and this point's `(peak - value)/peak` (0 when the peak is not
positive). -/
def drawdownStep (acc : ℚ × ℚ) (pt : EquityPoint) : ℚ × ℚ :=
  let peak := if acc.1 < pt.portfolio_value then pt.portfolio_value else acc.1
  let drawdown := if 0 < peak then (peak - pt.portfolio_value) / peak else 0
  (peak, max acc.2 drawdown)

/-- `_calculate_max_drawdown`: running peak over the equity curve,
maximum of `(peak - value)/peak` (0 for an empty curve). -/
def calc_max_drawdown (curve : List EquityPoint) : ℚ :=
  match curve with
  | [] => 0
  | p0 :: _ => (curve.foldl drawdownStep (p0.portfolio_value, 0)).2

/-- The per-point drawdowns named by the claim:
`(running_peak - portfolio_value)/running_peak` with `running_peak` the
highest portfolio value seen up to and including the point.  (This
definition follows the claim's words, for comparison with
`calc_max_drawdown`.) -/
def specDrawdowns (peak : ℚ) : List EquityPoint → List ℚ
  | [] => []
  | pt :: rest =>
    let peak' := max peak pt.portfolio_value
    ((peak' - pt.portfolio_value) / peak') :: specDrawdowns peak' rest

/-- The maximum of the claim's per-point drawdowns (0 for an empty
curve).  (Definition following the claim's words.) -/
def specMaxDrawdown : List EquityPoint → ℚ
  | [] => 0
  | pt :: rest => (specDrawdowns pt.portfolio_value (pt :: rest)).foldr max 0

/-- One row of `_calculate_monthly_returns` (`return` is a Lean keyword,
rendered `ret`). -/
structure MonthlyReturn where
  month : ℕ
  ret : ℚ
  start_value : ℚ
  end_value : ℚ
deriving DecidableEq, Repr

/-- Append a portfolio value to its month's bucket (Python dict of lists,
keyed by month in first-appearance order). -/
def addToMonth : List (ℕ × List ℚ) → ℕ → ℚ → List (ℕ × List ℚ)
  | [], k, v => [(k, [v])]
  | e :: rest, k, v =>
    if e.1 == k then (k, e.2 ++ [v]) :: rest else e :: addToMonth rest k v

/-- `_calculate_monthly_returns`, parameterised by the month key
function (the source's `strftime("%Y-%m")` on the timestamp); months
with a single data point are skipped. -/
def calc_monthly_returns (month : ℕ → ℕ) (curve : List EquityPoint) :
    List MonthlyReturn :=
  let monthly := curve.foldl
    (fun acc pt => addToMonth acc (month pt.timestamp) pt.portfolio_value) []
  monthly.filterMap fun e =>
    match e.2 with
    | v0 :: v1 :: vs =>
      let vlast := ((v1 :: vs).getLast?).getD v1
      some { month := e.1, ret := (vlast - v0) / v0
             start_value := v0, end_value := vlast }
    | _ => none

/-- The fields of the source's `BacktestResult` that are exact
arithmetic over the run state (the remaining entries of
`BacktestMetrics` are functions of the same `equity_curve`,
`daily_returns`, `orders`, `start_date` and `end_date`). -/
structure BacktestResult where
  start_date : ℕ
  end_date : ℕ
  initial_capital : ℚ
  final_capital : ℚ
  max_drawdown : ℚ
  trades : List BacktestOrder
  equity_curve : List EquityPoint
  positions_history : List PositionsSnapshot
  monthly_returns : List MonthlyReturn
deriving DecidableEq, Repr

/-- `run_backtest(strategy_func, start_date, end_date)`: reset the
mutable state, replay every in-range timestamp, and assemble the
result. -/
def run_backtest (month : ℕ → ℕ) (s : EngineState) (strat : Strategy)
    (start_date end_date : ℕ) : BacktestResult :=
  let tss := simTimestamps s.historical_data start_date end_date
  let sf := runSteps strat (resetState s) tss
  { start_date := start_date
    end_date := end_date
    initial_capital := s.initial_capital
    final_capital :=
      match sf.equity_curve.getLast? with
      | some pt => pt.portfolio_value
      | none => s.initial_capital
    max_drawdown := calc_max_drawdown sf.equity_curve
    trades := sf.orders.filter (fun o => o.status == .filled)
    equity_curve := sf.equity_curve
    positions_history := sf.positions_history
    monthly_returns := calc_monthly_returns month sf.equity_curve }

/-- All stored orders have positive quantity and all positions are long
or flat.  (Verification-side invariant used to state the implicit
long-only claim.) -/
def LongOnly (s : EngineState) : Prop :=
  (∀ o ∈ s.orders, 0 < o.quantity) ∧ ∀ e ∈ s.positions, 0 ≤ e.2.quantity

/-- Engine states reachable through the engine's operations: any reset
state, `place_order` with a positive quantity, and simulation steps
(fills, snapshot, callback) whose callbacks only place positive-quantity
orders. -/
inductive Reachable : EngineState → Prop
  | reset (s : EngineState) : Reachable (resetState s)
  | place (s : EngineState) (r : OrderRequest) (hs : Reachable s)
      (hq : 0 < r.quantity) : Reachable (place_order s r)
  | step (s : EngineState) (strat : Strategy) (ts : ℕ) (hs : Reachable s)
      (hstrat : ∀ t pd st reqs, strat t pd st = some reqs →
        ∀ r ∈ reqs, 0 < r.quantity) :
      Reachable (runStep strat s ts)

/-! ## Theorems -/

/-- The mark-to-market tail of `_update_position` does not change the
quantity. -/
@[simp] theorem markRecord_quantity (r : BacktestPosition) (price : ℚ) :
    (markRecord r price).quantity = r.quantity := by
  unfold markRecord; split <;> rfl

/-- The mark-to-market tail of `_update_position` does not change the
average price. -/
@[simp] theorem markRecord_avg_price (r : BacktestPosition) (price : ℚ) :
    (markRecord r price).avg_price = r.avg_price := by
  unfold markRecord; split <;> rfl

/-- The mark-to-market tail of `_update_position` does not change the
realized P&L. -/
@[simp] theorem markRecord_realized_pnl (r : BacktestPosition) (price : ℚ) :
    (markRecord r price).realized_pnl = r.realized_pnl := by
  unfold markRecord; split <;> rfl

/-- C1: a pending MARKET order filled against a bar fills a BUY at
exactly `high * (1 + slippage_rate)` and a SELL at exactly
`low * (1 - slippage_rate)`; the commission charged is
`fill_price * quantity * commission_rate`; and for every successful
fill (MARKET or LIMIT) cash is updated exactly as
`cash_after = cash_before - fill_price*qty - commission` for a BUY and
`cash_after = cash_before + fill_price*qty - commission` for a SELL. -/
theorem market_fill_price_commission_cash
    (commission_rate slippage_rate cap : ℚ)
    (positions : List (String × BacktestPosition)) (o : BacktestOrder)
    (cp hp lp : ℚ) (o' : BacktestOrder) (cap' : ℚ)
    (pos' : List (String × BacktestPosition))
    (h : execute_order commission_rate slippage_rate cap positions o cp hp lp =
      some (o', cap', pos')) :
    (o.order_type = .market → o.side = .buy →
      o'.filled_price = some (hp * (1 + slippage_rate))) ∧
    (o.order_type = .market → o.side = .sell →
      o'.filled_price = some (lp * (1 - slippage_rate))) ∧
    ∀ fp, o'.filled_price = some fp →
      o'.commission = fp * (o.quantity : ℚ) * commission_rate ∧
      (o.side = .buy → cap' = cap - fp * (o.quantity : ℚ) - o'.commission) ∧
      (o.side = .sell → cap' = cap + fp * (o.quantity : ℚ) - o'.commission) := by
  unfold execute_order at h
  split at h
  · exact Option.noConfusion h
  · rename_i hpend
    rcases hpx : execPrice slippage_rate o cp hp lp with _ | px
    · rw [hpx] at h; exact Option.noConfusion h
    rw [hpx] at h
    rcases hside : o.side with _ | _
    · -- buy
      rw [hside] at h
      simp only at h
      split at h
      · exact Option.noConfusion h
      · simp only [Option.some.injEq, Prod.mk.injEq] at h
        obtain ⟨ho', hcap', -⟩ := h
        subst ho' hcap'
        refine ⟨?_, ?_, ?_⟩
        · intro hty _
          simp [execPrice, hty, hside] at hpx
          simp [hpx]
        · intro _ hs; simp at hs
        · intro fp hfp
          have : px = fp := by simpa using hfp
          subst this
          refine ⟨rfl, fun _ => by ring, fun hs => ?_⟩
          simp at hs
    · -- sell
      rw [hside] at h
      simp only at h
      rcases hlp : lookupPos positions o.symbol with _ | pos
      · rw [hlp] at h; exact Option.noConfusion h
      rw [hlp] at h
      simp only at h
      split at h
      · exact Option.noConfusion h
      · simp only [Option.some.injEq, Prod.mk.injEq] at h
        obtain ⟨ho', hcap', -⟩ := h
        subst ho' hcap'
        refine ⟨?_, ?_, ?_⟩
        · intro _ hs; simp at hs
        · intro hty _
          simp [execPrice, hty, hside] at hpx
          simp [hpx]
        · intro fp hfp
          have : px = fp := by simpa using hfp
          subst this
          refine ⟨rfl, fun hs => ?_, fun _ => by ring⟩
          simp at hs

/-- Witness for C1: a MARKET BUY of 10 units at a bar with high 100,
slippage 1%, commission 1%, cash 10000 fills at 101 and the theorem's
fill-price conclusion holds there. -/
theorem market_fill_price_commission_cash_witness :
    ({ timestamp := 1, symbol := "A", side := OrderSide.buy
       order_type := OrderType.market, quantity := 10, filled_price := some 101
       filled_quantity := 10, status := OrderStatus.filled
       commission := 101/10 } : BacktestOrder).filled_price
      = some ((100 : ℚ) * (1 + 1/100)) :=
  (market_fill_price_commission_cash (1/100) (1/100) 10000 []
    { timestamp := 1, symbol := "A", side := .buy, order_type := .market, quantity := 10 }
    100 100 99
    { timestamp := 1, symbol := "A", side := .buy, order_type := .market
      quantity := 10, filled_price := some 101, filled_quantity := 10
      status := .filled, commission := 101/10 }
    (89799/10)
    [("A", { symbol := "A", quantity := 10, avg_price := 101, unrealized_pnl := 0
             realized_pnl := 0, market_value := 1010 })]
    (by norm_num [execute_order, execPrice, update_position, lookupPos, setPos,
        updatePositionRecord, markRecord])).1 rfl rfl

/-- C2, counterexample: on a short position of 3 at average price 10, a
further sell of 2 at price 12 (flat-or-same-sign case, since quantity and
delta are both negative) gives average price `(3*10 + 2*12)/(3+2) = 54/5`
in the code, while the claim's formula
`(old_qty*old_avg + |delta|*price)/(old_qty + |delta|)` with the signed
`old_qty = -3` yields `6`. -/
theorem update_position_short_add_counterexample :
    (updatePositionRecord
      { symbol := "A", quantity := -3, avg_price := 10, unrealized_pnl := 0
        realized_pnl := 0, market_value := 0 } (-2) 12).avg_price = 54/5 ∧
    ((((-3 : ℤ) : ℚ) * 10 + ((|(-2 : ℤ)| : ℤ) : ℚ) * 12) /
        (((-3 : ℤ) : ℚ) + ((|(-2 : ℤ)| : ℤ) : ℚ)) = 6) ∧
    (54 : ℚ)/5 ≠ 6 := by
  refine ⟨by norm_num [updatePositionRecord], by norm_num, by norm_num⟩

/-- C2 (amended): for `_update_position` on a single position record with
`delta ≠ 0`: flat-or-same-sign updates weighted-average the cost basis
with the *magnitude* `|old_qty|` (not the signed `old_qty` of the claim,
which coincides only for long/flat positions), add `delta` to the
quantity and leave realized P&L unchanged; an opposing `delta` with
`|delta| ≤ |old_qty|` realizes `sign(old_qty)*(price - old_avg)*|delta|`,
adds `delta` to the quantity and keeps `avg_price`; an opposing `delta`
with `|delta| > |old_qty|` realizes on the full old quantity and opens
the remainder on the opposite side at `avg_price = price`. -/
theorem update_position_ledger_cases (p : BacktestPosition) (δ : ℤ) (price : ℚ)
    (hδ : δ ≠ 0) :
    (0 ≤ p.quantity * δ →
      (updatePositionRecord p δ price).quantity = p.quantity + δ ∧
      (updatePositionRecord p δ price).avg_price =
        (((|p.quantity| : ℤ) : ℚ) * p.avg_price + ((|δ| : ℤ) : ℚ) * price) /
          (((|p.quantity| : ℤ) : ℚ) + ((|δ| : ℤ) : ℚ)) ∧
      (updatePositionRecord p δ price).realized_pnl = p.realized_pnl) ∧
    (p.quantity * δ < 0 → |δ| ≤ |p.quantity| →
      (updatePositionRecord p δ price).realized_pnl =
        p.realized_pnl + (Int.sign p.quantity : ℚ) * (price - p.avg_price) * ((|δ| : ℤ) : ℚ) ∧
      (updatePositionRecord p δ price).quantity = p.quantity + δ ∧
      (updatePositionRecord p δ price).avg_price = p.avg_price) ∧
    (p.quantity * δ < 0 → |p.quantity| < |δ| →
      (updatePositionRecord p δ price).realized_pnl =
        p.realized_pnl + (Int.sign p.quantity : ℚ) * (price - p.avg_price) * ((|p.quantity| : ℤ) : ℚ) ∧
      (updatePositionRecord p δ price).quantity = p.quantity + δ ∧
      (updatePositionRecord p δ price).avg_price = price) := by
  refine ⟨?_, ?_, ?_⟩
  · -- flat or same sign: weighted average on magnitudes
    intro hsame
    rcases hδ.lt_or_lt with hδneg | hδpos
    · have hq : p.quantity ≤ 0 := by nlinarith
      have e1 : |δ| = -δ := abs_of_neg hδneg
      have h1 : ¬ (0 < δ) := by omega
      have h2 : ¬ (0 < p.quantity) := by omega
      have h3 : p.quantity - |δ| ≠ 0 := by rw [e1]; omega
      simp only [updatePositionRecord, markRecord_quantity, markRecord_avg_price,
        markRecord_realized_pnl, if_neg h1, if_neg h2, if_pos h3]
      refine ⟨?_, ?_, ?_⟩
      · first | trivial | (rw [e1]; omega)
      · have q0 : (p.quantity : ℚ) ≤ 0 := by exact_mod_cast hq
        have d0 : (δ : ℚ) < 0 := by exact_mod_cast hδneg
        push_cast
        rw [abs_of_neg d0, abs_of_nonpos q0,
          abs_of_neg (show (p.quantity : ℚ) - -(δ : ℚ) < 0 by linarith)]
        ring
      · first | trivial | rfl
    · have hq : 0 ≤ p.quantity := by nlinarith
      have h3 : 0 < p.quantity + δ := by omega
      simp only [updatePositionRecord, markRecord_quantity, markRecord_avg_price,
        markRecord_realized_pnl, if_pos hδpos, if_pos hq, if_pos h3]
      refine ⟨?_, ?_, ?_⟩
      · first | trivial | omega
      · have q0 : (0 : ℚ) ≤ (p.quantity : ℚ) := by exact_mod_cast hq
        have d0 : (0 : ℚ) < (δ : ℚ) := by exact_mod_cast hδpos
        push_cast
        rw [abs_of_pos d0, abs_of_nonneg q0]
      · first | trivial | rfl
  · -- opposing delta, |δ| ≤ |old quantity|: partial close at unchanged basis
    intro hopp hle
    rcases hδ.lt_or_lt with hδneg | hδpos
    · have hq : 0 < p.quantity := by nlinarith
      have e1 : |δ| = -δ := abs_of_neg hδneg
      have e2 : |p.quantity| = p.quantity := abs_of_nonneg hq.le
      have h1 : ¬ (0 < δ) := by omega
      have hle' : |δ| ≤ p.quantity := by rw [← e2]; exact hle
      have hs : Int.sign p.quantity = 1 := Int.sign_eq_one_iff_pos.mpr hq
      simp only [updatePositionRecord, markRecord_quantity, markRecord_avg_price,
        markRecord_realized_pnl, if_neg h1, if_pos hq, if_pos hle']
      refine ⟨?_, ?_, ?_⟩
      · rw [hs]; push_cast; ring
      · first | trivial | (rw [e1]; omega)
      · first | trivial | rfl
    · have hq : p.quantity < 0 := by nlinarith
      have e1 : |δ| = δ := abs_of_pos hδpos
      have h2 : ¬ (0 ≤ p.quantity) := by omega
      have hle' : δ ≤ |p.quantity| := by rw [← e1]; exact hle
      have hs : Int.sign p.quantity = -1 := Int.sign_eq_neg_one_iff_neg.mpr hq
      simp only [updatePositionRecord, markRecord_quantity, markRecord_avg_price,
        markRecord_realized_pnl, if_pos hδpos, if_neg h2, if_pos hle']
      refine ⟨?_, ?_, ?_⟩
      · rw [hs, e1]; push_cast; ring
      · first | trivial | omega
      · first | trivial | rfl
  · -- opposing delta beyond the old quantity: realize all, flip at `price`
    intro hopp hlt
    rcases hδ.lt_or_lt with hδneg | hδpos
    · have hq : 0 < p.quantity := by nlinarith
      have e1 : |δ| = -δ := abs_of_neg hδneg
      have e2 : |p.quantity| = p.quantity := abs_of_nonneg hq.le
      have h1 : ¬ (0 < δ) := by omega
      have hlt' : ¬ (|δ| ≤ p.quantity) := by rw [e1]; rw [e2] at hlt; omega
      have hs : Int.sign p.quantity = 1 := Int.sign_eq_one_iff_pos.mpr hq
      simp only [updatePositionRecord, markRecord_quantity, markRecord_avg_price,
        markRecord_realized_pnl, if_neg h1, if_pos hq, if_neg hlt']
      refine ⟨?_, ?_, ?_⟩
      · rw [hs, e2]; push_cast; ring
      · first | trivial | (rw [e1]; omega)
      · first | trivial | rfl
    · have hq : p.quantity < 0 := by nlinarith
      have e1 : |δ| = δ := abs_of_pos hδpos
      have e2 : |p.quantity| = -p.quantity := abs_of_neg hq
      have h2 : ¬ (0 ≤ p.quantity) := by omega
      have hlt' : ¬ (δ ≤ |p.quantity|) := by rw [e2]; rw [e1] at hlt; omega
      have hs : Int.sign p.quantity = -1 := Int.sign_eq_neg_one_iff_neg.mpr hq
      simp only [updatePositionRecord, markRecord_quantity, markRecord_avg_price,
        markRecord_realized_pnl, if_pos hδpos, if_neg h2, if_neg hlt']
      refine ⟨?_, ?_, ?_⟩
      · rw [hs]; push_cast
        rw [abs_of_nonpos (show (p.quantity : ℚ) ≤ 0 by exact_mod_cast hq.le)]
        ring
      · first | trivial | (rw [e1]; omega) | (rw [e2]; omega)
      · first | trivial | rfl

/-- Witness for C2 (amended): the short position of 3 at 10 sold 2 more
at 12 averages to `(3*10 + 2*12)/(3+2)` by the magnitude-weighted
formula. -/
theorem update_position_ledger_cases_witness :
    ((-2 : ℤ) ≠ 0) ∧
    (updatePositionRecord
      { symbol := "A", quantity := -3, avg_price := 10, unrealized_pnl := 0
        realized_pnl := 0, market_value := 0 } (-2) 12).avg_price =
      (((|(-3 : ℤ)| : ℤ) : ℚ) * 10 + ((|(-2 : ℤ)| : ℤ) : ℚ) * 12) /
        (((|(-3 : ℤ)| : ℤ) : ℚ) + ((|(-2 : ℤ)| : ℤ) : ℚ)) :=
  ⟨by norm_num,
   ((update_position_ledger_cases
      { symbol := "A", quantity := -3, avg_price := 10, unrealized_pnl := 0
        realized_pnl := 0, market_value := 0 } (-2) 12 (by norm_num)).1
      (by norm_num)).2.1⟩

/-- C5: a fill attempt rejected for insufficient cash (a BUY whose
fill price times quantity exceeds available cash) or insufficient
position (a SELL whose quantity exceeds the held quantity, including
selling when flat) fills nothing: the attempt leaves the order exactly
as it was (hence still pending), opens no position, and leaves cash and
every position unchanged. -/
theorem rejected_fill_leaves_state_unchanged
    (commission_rate slippage_rate cap : ℚ)
    (positions : List (String × BacktestPosition)) (o : BacktestOrder)
    (ts : ℕ) (price_data : List (String × Bar)) (bar : Bar)
    (hbar : lookupBar price_data o.symbol = some bar) (px : ℚ)
    (hpx : execPrice slippage_rate o bar.close bar.high bar.low = some px)
    (hrej :
      (o.side = .buy ∧ cap < px * (o.quantity : ℚ)) ∨
      (o.side = .sell ∧
        ∀ pos, lookupPos positions o.symbol = some pos →
          pos.quantity < o.quantity)) :
    execute_order commission_rate slippage_rate cap positions o
      bar.close bar.high bar.low = none ∧
    executePendingOrders commission_rate slippage_rate ts price_data cap
      positions [o] = (cap, positions, [o]) := by
  have hmain : execute_order commission_rate slippage_rate cap positions o
      bar.close bar.high bar.low = none := by
    unfold execute_order
    split
    · rfl
    · rw [hpx]
      rcases hrej with ⟨hside, hcap⟩ | ⟨hside, hpos⟩
      · rw [hside]
        simp only [if_pos hcap]
      · rw [hside]
        simp only
        rcases hq : lookupPos positions o.symbol with _ | pos
        · rfl
        · simp only [if_pos (hpos pos hq)]
    all_goals rfl
  refine ⟨hmain, ?_⟩
  unfold executePendingOrders
  by_cases helig : fillEligible o ts price_data
  · rw [if_pos helig, hbar]
    simp [executePendingOrders, hmain]
  · rw [if_neg helig]
    simp [executePendingOrders]

/-- Witness for C5 (Scenario 2 of the spec): a SELL of 5 units when the
position holds only 3 is rejected and the whole fill pass returns cash,
positions and order list unchanged. -/
theorem rejected_fill_leaves_state_unchanged_witness :
    executePendingOrders (1/1000) (1/100) 1
      [("A", { open_ := 10, high := 11, low := 9, close := 10, volume := 100 })]
      1000
      [("A", { symbol := "A", quantity := 3, avg_price := 10, unrealized_pnl := 0
               realized_pnl := 0, market_value := 30 })]
      [{ timestamp := 1, symbol := "A", side := OrderSide.sell
         order_type := OrderType.market, quantity := 5 }] =
    (1000,
     [("A", { symbol := "A", quantity := 3, avg_price := 10, unrealized_pnl := 0
              realized_pnl := 0, market_value := 30 })],
     [{ timestamp := 1, symbol := "A", side := OrderSide.sell
        order_type := OrderType.market, quantity := 5 }]) :=
  (rejected_fill_leaves_state_unchanged (1/1000) (1/100) 1000
    [("A", { symbol := "A", quantity := 3, avg_price := 10, unrealized_pnl := 0
             realized_pnl := 0, market_value := 30 })]
    { timestamp := 1, symbol := "A", side := OrderSide.sell
      order_type := OrderType.market, quantity := 5 }
    1 [("A", { open_ := 10, high := 11, low := 9, close := 10, volume := 100 })]
    { open_ := 10, high := 11, low := 9, close := 10, volume := 100 }
    (by norm_num [lookupBar, List.find?])
    (9 * (1 - 1/100))
    (by simp [execPrice])
    (Or.inr ⟨rfl, by
      intro pos h
      simp [lookupPos, List.find?] at h
      rw [← h]
      norm_num⟩)).2

/-- C4, counterexample: a pending LIMIT SELL with limit price 100 on a
bar closing at 105 (so `close >= limit_price` holds) does *not* fill
when no position is held — the "fills iff" direction of the claim fails
because the position (and, for a BUY, the cash) sufficiency check can
still reject the order. -/
theorem limit_fill_iff_counterexample :
    (100 : ℚ) ≤ 105 ∧
    execute_order 0 0 1000 []
      { timestamp := 1, symbol := "A", side := OrderSide.sell
        order_type := OrderType.limit, quantity := 5, price := some 100 }
      105 110 100 = none := by
  refine ⟨by norm_num, ?_⟩
  simp [execute_order, execPrice, lookupPos]
  norm_num

/-- C4 (amended): for a pending LIMIT order with limit price `p`, a BUY
fills iff `close <= p` *and* the cash check passes, a SELL fills iff
`close >= p` *and* the held position covers the quantity; when it fills,
a BUY fills at `min(p, high)` (never above `p`) and a SELL at
`max(p, low)` (never below `p`). -/
theorem limit_fill_characterisation
    (commission_rate slippage_rate cap : ℚ)
    (positions : List (String × BacktestPosition)) (o : BacktestOrder)
    (cp hp lp : ℚ) (p : ℚ)
    (hty : o.order_type = .limit) (hprice : o.price = some p)
    (hpend : o.status = .pending) :
    (o.side = .buy →
      ((execute_order commission_rate slippage_rate cap positions o cp hp lp).isSome
          = true ↔
        (cp ≤ p ∧ min p hp * (o.quantity : ℚ) ≤ cap)) ∧
      (∀ o' cap' pos',
        execute_order commission_rate slippage_rate cap positions o cp hp lp =
          some (o', cap', pos') →
        o'.filled_price = some (min p hp) ∧ min p hp ≤ p)) ∧
    (o.side = .sell →
      ((execute_order commission_rate slippage_rate cap positions o cp hp lp).isSome
          = true ↔
        (p ≤ cp ∧ ∃ pos, lookupPos positions o.symbol = some pos ∧
          o.quantity ≤ pos.quantity)) ∧
      (∀ o' cap' pos',
        execute_order commission_rate slippage_rate cap positions o cp hp lp =
          some (o', cap', pos') →
        o'.filled_price = some (max p lp) ∧ p ≤ max p lp)) := by
  constructor
  · intro hside
    have hpx : execPrice slippage_rate o cp hp lp =
        if cp ≤ p then some (min p hp) else none := by
      simp [execPrice, hty, hprice, hside]
    constructor
    · by_cases hcp : cp ≤ p
      · by_cases hcap : cap < min p hp * (o.quantity : ℚ)
        · simp [execute_order, hpend, hpx, hside, hcp, hcap]
        · simp [execute_order, hpend, hpx, hside, hcp, hcap]
          linarith
      · simp [execute_order, hpend, hpx, hside, hcp]
    · intro o' cap' pos' h
      rw [execute_order] at h
      rw [if_neg (by simp [hpend])] at h
      rw [hpx] at h
      by_cases hcp : cp ≤ p
      · rw [if_pos hcp] at h
        rw [hside] at h
        simp only at h
        split at h
        · exact Option.noConfusion h
        · simp only [Option.some.injEq, Prod.mk.injEq] at h
          obtain ⟨ho', -, -⟩ := h
          subst ho'
          exact ⟨rfl, min_le_left _ _⟩
      · rw [if_neg hcp] at h
        rw [hside] at h
        exact Option.noConfusion h
  · intro hside
    have hpx : execPrice slippage_rate o cp hp lp =
        if p ≤ cp then some (max p lp) else none := by
      simp [execPrice, hty, hprice, hside]
    constructor
    · by_cases hcp : p ≤ cp
      · rcases hq : lookupPos positions o.symbol with _ | pos
        · simp [execute_order, hpend, hpx, hside, hcp, hq]
        · by_cases hqty : pos.quantity < o.quantity
          · simp [execute_order, hpend, hpx, hside, hcp, hq, hqty]
          · simp [execute_order, hpend, hpx, hside, hcp, hq, hqty]
            omega
      · simp [execute_order, hpend, hpx, hside, hcp]
    · intro o' cap' pos' h
      rw [execute_order] at h
      rw [if_neg (by simp [hpend])] at h
      rw [hpx] at h
      by_cases hcp : p ≤ cp
      · rw [if_pos hcp] at h
        rw [hside] at h
        simp only at h
        rcases hq : lookupPos positions o.symbol with _ | pos
        · rw [hq] at h; exact Option.noConfusion h
        · rw [hq] at h
          simp only at h
          split at h
          · exact Option.noConfusion h
          · simp only [Option.some.injEq, Prod.mk.injEq] at h
            obtain ⟨ho', -, -⟩ := h
            subst ho'
            exact ⟨rfl, le_max_left _ _⟩
      · rw [if_neg hcp] at h
        rw [hside] at h
        exact Option.noConfusion h

/-- Witness for C4 (amended): a LIMIT BUY with limit 100 on a bar with
close 95 and high 98 and ample cash does fill. -/
theorem limit_fill_characterisation_witness :
    (execute_order 0 0 1000 []
      { timestamp := 1, symbol := "A", side := OrderSide.buy
        order_type := OrderType.limit, quantity := 2, price := some 100 }
      95 98 90).isSome = true :=
  ((limit_fill_characterisation 0 0 1000 []
      { timestamp := 1, symbol := "A", side := OrderSide.buy
        order_type := OrderType.limit, quantity := 2, price := some 100 }
      95 98 90 100 rfl rfl rfl).1 rfl).1.mpr ⟨by norm_num, by norm_num⟩

/-- A maximum folded from 0 is nonnegative. -/
theorem foldr_max_nonneg (l : List ℚ) : 0 ≤ l.foldr max 0 := by
  induction l with
  | nil => simp
  | cons x xs ih => exact le_max_of_le_right ih

/-- The drawdown fold of `_calculate_max_drawdown` computes the maximum
of the accumulator and the claim's per-point drawdowns, for a positive
starting peak. -/
theorem foldl_drawdownStep_eq (l : List EquityPoint) :
    ∀ peak md : ℚ, 0 < peak → 0 ≤ md →
      (l.foldl drawdownStep (peak, md)).2 =
        max md ((specDrawdowns peak l).foldr max 0) := by
  induction l with
  | nil =>
    intro peak md _ hmd
    simp [specDrawdowns, max_eq_left hmd]
  | cons pt rest ih =>
    intro peak md hpeak hmd
    have hpk : (if peak < pt.portfolio_value then pt.portfolio_value else peak) =
        max peak pt.portfolio_value := by
      rcases lt_or_ge peak pt.portfolio_value with h | h
      · simp [h, max_eq_right h.le]
      · simp [not_lt.mpr h, max_eq_left h]
    have hpeak' : 0 < max peak pt.portfolio_value := lt_max_of_lt_left hpeak
    have step_eq : drawdownStep (peak, md) pt =
        (max peak pt.portfolio_value,
         max md ((max peak pt.portfolio_value - pt.portfolio_value) /
           max peak pt.portfolio_value)) := by
      simp only [drawdownStep, hpk, if_pos hpeak']
    rw [List.foldl_cons, step_eq,
      ih _ _ hpeak' (le_trans hmd (le_max_left _ _))]
    simp only [specDrawdowns, List.foldr_cons]
    rw [max_assoc]

/-- On a monotonically nondecreasing curve the drawdown fold never
raises the accumulator. -/
theorem foldl_drawdownStep_monotone (l : List EquityPoint) :
    ∀ peak md : ℚ, 0 < peak → 0 ≤ md →
      (∀ pt ∈ l, peak ≤ pt.portfolio_value) →
      l.Pairwise (fun a b => a.portfolio_value ≤ b.portfolio_value) →
      (l.foldl drawdownStep (peak, md)).2 = md := by
  induction l with
  | nil => intro peak md _ _ _ _; rfl
  | cons pt rest ih =>
    intro peak md hpeak hmd hle hpair
    have h1 : peak ≤ pt.portfolio_value := hle pt (List.mem_cons_self _ _)
    have hpk : (if peak < pt.portfolio_value then pt.portfolio_value else peak) =
        pt.portfolio_value := by
      rcases eq_or_lt_of_le h1 with h | h
      · subst h; simp
      · simp [h]
    have hv : 0 < pt.portfolio_value := lt_of_lt_of_le hpeak h1
    have step_eq : drawdownStep (peak, md) pt = (pt.portfolio_value, md) := by
      simp only [drawdownStep, hpk, if_pos hv]
      simp [max_eq_left hmd]
    rw [List.foldl_cons, step_eq]
    exact ih _ _ hv hmd
      (fun q hq => (List.pairwise_cons.mp hpair).1 q hq)
      (List.pairwise_cons.mp hpair).2

/-- C7: `max_drawdown` equals the maximum over all equity points of
`(running_peak - portfolio_value)/running_peak` (for a curve whose
first value is positive); it is exactly 0 on a monotonically
nondecreasing curve; and on `[100000, 120000, 90000, 110000]` it is
exactly `(120000-90000)/120000 = 1/4`. -/
theorem max_drawdown_characterisation (curve : List EquityPoint)
    (p0 : EquityPoint) (h0 : curve.head? = some p0)
    (hpos : 0 < p0.portfolio_value) :
    calc_max_drawdown curve = specMaxDrawdown curve ∧
    (curve.Pairwise (fun a b => a.portfolio_value ≤ b.portfolio_value) →
      calc_max_drawdown curve = 0) ∧
    calc_max_drawdown
      [{ timestamp := 0, portfolio_value := 100000, cash := 100000
         market_value := 0, realized_pnl := 0, unrealized_pnl := 0, total_pnl := 0 },
       { timestamp := 1, portfolio_value := 120000, cash := 120000
         market_value := 0, realized_pnl := 0, unrealized_pnl := 0, total_pnl := 0 },
       { timestamp := 2, portfolio_value := 90000, cash := 90000
         market_value := 0, realized_pnl := 0, unrealized_pnl := 0, total_pnl := 0 },
       { timestamp := 3, portfolio_value := 110000, cash := 110000
         market_value := 0, realized_pnl := 0, unrealized_pnl := 0, total_pnl := 0 }] =
      1/4 := by
  cases curve with
  | nil => simp at h0
  | cons q rest =>
    have hq : q = p0 := by simpa using h0
    subst hq
    refine ⟨?_, ?_, ?_⟩
    · show ((q :: rest).foldl drawdownStep (q.portfolio_value, 0)).2 =
        (specDrawdowns q.portfolio_value (q :: rest)).foldr max 0
      rw [foldl_drawdownStep_eq _ _ _ hpos le_rfl]
      exact max_eq_right (foldr_max_nonneg _)
    · intro hpair
      show ((q :: rest).foldl drawdownStep (q.portfolio_value, 0)).2 = 0
      refine foldl_drawdownStep_monotone _ _ _ hpos le_rfl ?_ hpair
      intro pt hpt
      rcases List.mem_cons.mp hpt with h | h
      · rw [h]
      · exact (List.pairwise_cons.mp hpair).1 pt h
    · norm_num [calc_max_drawdown, drawdownStep]

/-- Witness for C7: the Scenario-3 curve evaluates to exactly 1/4. -/
theorem max_drawdown_characterisation_witness :
    calc_max_drawdown
      [{ timestamp := 0, portfolio_value := 100000, cash := 100000
         market_value := 0, realized_pnl := 0, unrealized_pnl := 0, total_pnl := 0 },
       { timestamp := 1, portfolio_value := 120000, cash := 120000
         market_value := 0, realized_pnl := 0, unrealized_pnl := 0, total_pnl := 0 },
       { timestamp := 2, portfolio_value := 90000, cash := 90000
         market_value := 0, realized_pnl := 0, unrealized_pnl := 0, total_pnl := 0 },
       { timestamp := 3, portfolio_value := 110000, cash := 110000
         market_value := 0, realized_pnl := 0, unrealized_pnl := 0, total_pnl := 0 }] =
      1/4 :=
  (max_drawdown_characterisation
    [{ timestamp := 0, portfolio_value := 100000, cash := 100000
       market_value := 0, realized_pnl := 0, unrealized_pnl := 0, total_pnl := 0 },
     { timestamp := 1, portfolio_value := 120000, cash := 120000
       market_value := 0, realized_pnl := 0, unrealized_pnl := 0, total_pnl := 0 },
     { timestamp := 2, portfolio_value := 90000, cash := 90000
       market_value := 0, realized_pnl := 0, unrealized_pnl := 0, total_pnl := 0 },
     { timestamp := 3, portfolio_value := 110000, cash := 110000
       market_value := 0, realized_pnl := 0, unrealized_pnl := 0, total_pnl := 0 }]
    { timestamp := 0, portfolio_value := 100000, cash := 100000
      market_value := 0, realized_pnl := 0, unrealized_pnl := 0, total_pnl := 0 }
    rfl (by norm_num)).2.2

/-- Folding `place_order` over the callback's requests only appends the
corresponding pending orders. -/
theorem foldl_place_order (reqs : List OrderRequest) :
    ∀ s : EngineState, reqs.foldl place_order s =
      { s with orders := s.orders ++ reqs.map mkOrder } := by
  induction reqs with
  | nil => intro s; simp
  | cons r rest ih =>
    intro s
    rw [List.foldl_cons, ih]
    simp [place_order, List.append_assoc]

/-- One simulation step appends exactly one equity point — the snapshot
taken after the fill phase — no matter what the strategy callback does
(even when it raises). -/
theorem runStep_equity_curve (strat : Strategy) (s : EngineState) (ts : ℕ) :
    (runStep strat s ts).equity_curve =
      s.equity_curve ++
        [snapshotPoint (fillsApplied s ts) ts
          ((collectBars s.historical_data ts).map fun e => (e.1, e.2.close))] := by
  unfold runStep
  rcases h : strat ts (collectBars s.historical_data ts) (afterFills s ts) with _ | reqs
  · simp only [h]
    rfl
  · simp only [h]
    rw [foldl_place_order]
    rfl

/-- One simulation step appends one daily return when the equity curve
is already non-empty, and none for the very first snapshot. -/
theorem runStep_daily_returns (strat : Strategy) (s : EngineState) (ts : ℕ) :
    (runStep strat s ts).daily_returns =
      match s.equity_curve.getLast? with
      | some prev =>
        s.daily_returns ++
          [if 0 < prev.portfolio_value then
             ((snapshotPoint (fillsApplied s ts) ts
                ((collectBars s.historical_data ts).map
                  fun e => (e.1, e.2.close))).portfolio_value -
               prev.portfolio_value) / prev.portfolio_value
           else 0]
      | none => s.daily_returns := by
  unfold runStep
  rcases h : strat ts (collectBars s.historical_data ts) (afterFills s ts) with _ | reqs
  · simp only [h]
    rfl
  · simp only [h]
    rw [foldl_place_order]
    rfl

/-- Each step grows the equity curve by exactly one point. -/
theorem runSteps_equity_len (strat : Strategy) (tss : List ℕ) :
    ∀ s : EngineState,
      (runSteps strat s tss).equity_curve.length =
        s.equity_curve.length + tss.length := by
  induction tss with
  | nil => intro s; simp [runSteps]
  | cons t rest ih =>
    intro s
    simp only [runSteps, List.foldl_cons]
    have h1 := ih (runStep strat s t)
    simp only [runSteps] at h1
    rw [h1, runStep_equity_curve]
    simp [List.length_append]
    omega

/-- Once the equity curve is non-empty, each step also grows the stored
daily-return list by exactly one entry. -/
theorem runSteps_daily_len_of_nonempty (strat : Strategy) (tss : List ℕ) :
    ∀ s : EngineState, s.equity_curve ≠ [] →
      (runSteps strat s tss).daily_returns.length =
        s.daily_returns.length + tss.length := by
  induction tss with
  | nil => intro s _; simp [runSteps]
  | cons t rest ih =>
    intro s hne
    simp only [runSteps, List.foldl_cons]
    obtain ⟨prev, hprev⟩ : ∃ prev, s.equity_curve.getLast? = some prev := by
      rcases hcu : s.equity_curve.getLast? with _ | prev
      · exact absurd (List.getLast?_eq_none_iff.mp hcu) hne
      · exact ⟨prev, rfl⟩
    have hd := runStep_daily_returns strat s t
    rw [hprev] at hd
    have hcne : (runStep strat s t).equity_curve ≠ [] := by
      rw [runStep_equity_curve]; simp
    have h1 := ih (runStep strat s t) hcne
    simp only [runSteps] at h1
    rw [h1, hd]
    simp [List.length_append]
    omega

/-- C9, counterexample: taking the very first equity snapshot stores
*no* daily return at all — after one snapshot the stored daily-return
list has 0 entries, not 1 (the claim's "0 for the first snapshot" entry
is never stored; the source only appends when
`len(self.equity_curve) > 1`). -/
theorem daily_returns_first_counterexample :
    ((update_portfolio_value
      { initial_capital := 100000, commission_rate := 1/1000
        slippage_rate := 1/2000, historical_data := []
        current_capital := 100000, positions := [], orders := []
        equity_curve := [], positions_history := [], daily_returns := [] }
      0 []).equity_curve.length = 1) ∧
    ((update_portfolio_value
      { initial_capital := 100000, commission_rate := 1/1000
        slippage_rate := 1/2000, historical_data := []
        current_capital := 100000, positions := [], orders := []
        equity_curve := [], positions_history := [], daily_returns := [] }
      0 []).daily_returns.length = 0) ∧
    (0 : ℕ) ≠ 1 :=
  ⟨rfl, rfl, by norm_num⟩

/-- C9 (amended): the equity tracker appends one equity point per
snapshot, stores *no* daily return for the first snapshot, and for every
later snapshot stores one daily return equal to the percentage change of
`portfolio_value` relative to the previous snapshot (0 when the previous
value is not positive); hence a run over n timestamps stores n equity
points and n-1 daily returns. -/
theorem daily_returns_structure (s : EngineState) (ts : ℕ)
    (prices : List (String × ℚ)) (strat : Strategy) (tss : List ℕ)
    (htss : tss ≠ []) :
    ((update_portfolio_value s ts prices).equity_curve =
        s.equity_curve ++ [snapshotPoint s ts prices]) ∧
    (s.equity_curve = [] →
      (update_portfolio_value s ts prices).daily_returns = s.daily_returns) ∧
    (∀ prev, s.equity_curve.getLast? = some prev →
      (update_portfolio_value s ts prices).daily_returns =
        s.daily_returns ++
          [if 0 < prev.portfolio_value then
             ((snapshotPoint s ts prices).portfolio_value -
               prev.portfolio_value) / prev.portfolio_value
           else 0]) ∧
    (runSteps strat (resetState s) tss).equity_curve.length = tss.length ∧
    (runSteps strat (resetState s) tss).daily_returns.length = tss.length - 1 := by
  refine ⟨rfl, ?_, ?_, ?_, ?_⟩
  · intro h
    simp [update_portfolio_value, h]
  · intro prev hprev
    simp [update_portfolio_value, hprev]
  · rw [runSteps_equity_len]
    simp [resetState]
  · cases tss with
    | nil => exact absurd rfl htss
    | cons t rest =>
      simp only [runSteps, List.foldl_cons]
      have hd := runStep_daily_returns strat (resetState s) t
      have hcempty : (resetState s).equity_curve = [] := rfl
      rw [hcempty] at hd
      simp only [List.getLast?] at hd
      have hcne : (runStep strat (resetState s) t).equity_curve ≠ [] := by
        rw [runStep_equity_curve, hcempty]; simp
      have h1 := runSteps_daily_len_of_nonempty strat rest
        (runStep strat (resetState s) t) hcne
      simp only [runSteps] at h1
      rw [h1, hd]
      simp [resetState]

/-- Witness for C9 (amended): a one-step run records one equity point
and zero daily returns. -/
theorem daily_returns_structure_witness :
    (([5] : List ℕ) ≠ []) ∧
    (runSteps (fun _ _ _ => some [])
      (resetState
        { initial_capital := 1000, commission_rate := 0, slippage_rate := 0
          historical_data := [], current_capital := 1000, positions := []
          orders := [], equity_curve := [], positions_history := []
          daily_returns := [] })
      [5]).equity_curve.length = 1 :=
  ⟨by simp,
   by
    have h := (daily_returns_structure
      { initial_capital := 1000, commission_rate := 0, slippage_rate := 0
        historical_data := [], current_capital := 1000, positions := []
        orders := [], equity_curve := [], positions_history := []
        daily_returns := [] }
      0 [] (fun _ _ _ => some []) [5] (by simp)).2.2.2.1
    simpa using h⟩

/-- C3: orders placed by the strategy callback during a step are only
appended after the step's fill pass and equity snapshot, so they end the
step with status `pending` (never filled at the step that placed them);
an order placed with the step's timestamp passes the fill-pass guard at
any later timestamp whose bars include its symbol, so it is first
eligible at the immediately following step. -/
theorem orders_placed_fill_next_step
    (strat : Strategy) (s : EngineState) (ts : ℕ) (reqs : List OrderRequest)
    (hreqs : strat ts (collectBars s.historical_data ts) (afterFills s ts) =
      some reqs) :
    (runStep strat s ts).orders = (afterFills s ts).orders ++ reqs.map mkOrder ∧
    (∀ r ∈ reqs, (mkOrder r).status = OrderStatus.pending) ∧
    (∀ r ∈ reqs, r.timestamp = ts →
      ∀ ts2, ts ≤ ts2 → ∀ pd : List (String × Bar),
        (lookupBar pd (mkOrder r).symbol).isSome = true →
        fillEligible (mkOrder r) ts2 pd = true) := by
  refine ⟨?_, ?_, ?_⟩
  · unfold runStep
    simp only [hreqs]
    rw [foldl_place_order]
  · intro r _
    rfl
  · intro r _ hts ts2 hle pd hpd
    simp [fillEligible, mkOrder, hts, hle]
    simpa [mkOrder] using hpd

/-- Witness for C3: a callback placing a single MARKET BUY at the
current timestamp leaves it pending with the guard satisfied at the next
step. -/
theorem orders_placed_fill_next_step_witness :
    (mkOrder { timestamp := 7, symbol := "A", side := OrderSide.buy
               quantity := 1 }).status = OrderStatus.pending :=
  (orders_placed_fill_next_step
    (fun _ _ _ => some [{ timestamp := 7, symbol := "A"
                          side := OrderSide.buy, quantity := 1 }])
    (resetState
      { initial_capital := 1000, commission_rate := 0, slippage_rate := 0
        historical_data := [], current_capital := 1000, positions := []
        orders := [], equity_curve := [], positions_history := []
        daily_returns := [] })
    7
    [{ timestamp := 7, symbol := "A", side := OrderSide.buy, quantity := 1 }]
    rfl).2.1
    { timestamp := 7, symbol := "A", side := OrderSide.buy, quantity := 1 }
    (List.mem_singleton_self _)

/-- The equity curve's timestamps after a run of steps are the processed
timestamps, whatever the callback does at each step. -/
theorem runSteps_equity_timestamps (strat : Strategy) (tss : List ℕ) :
    ∀ s : EngineState,
      (runSteps strat s tss).equity_curve.map (fun pt => pt.timestamp) =
        s.equity_curve.map (fun pt => pt.timestamp) ++ tss := by
  induction tss with
  | nil => intro s; simp [runSteps]
  | cons t rest ih =>
    intro s
    simp only [runSteps, List.foldl_cons]
    have h1 := ih (runStep strat s t)
    simp only [runSteps] at h1
    rw [h1, runStep_equity_curve]
    simp [snapshotPoint]

/-- Two strategies that differ only in that the first raises where the
second places no orders drive identical runs. -/
theorem runSteps_strat_agree (strat strat2 : Strategy)
    (hagree : ∀ ts pd st, strat ts pd st = strat2 ts pd st ∨
      (strat ts pd st = none ∧ strat2 ts pd st = some [])) (tss : List ℕ) :
    ∀ s : EngineState, runSteps strat s tss = runSteps strat2 s tss := by
  induction tss with
  | nil => intro s; rfl
  | cons t rest ih =>
    intro s
    simp only [runSteps, List.foldl_cons]
    have hstep : runStep strat s t = runStep strat2 s t := by
      unfold runStep
      rcases hagree t (collectBars s.historical_data t) (afterFills s t) with
        h | ⟨h1, h2⟩
      · simp only [h]
      · simp only [h1, h2]
        rfl
    rw [hstep]
    have h3 := ih (runStep strat2 s t)
    simpa [runSteps] using h3

/-- C6: a strategy callback that raises is caught: the run still
completes and produces a `BacktestResult` whose equity curve has one
snapshot per simulated timestamp (the snapshot precedes the callback),
and the whole result equals that of the same run whose callback places
no orders at the raising steps. -/
theorem callback_exception_tolerated (month : ℕ → ℕ)
    (s : EngineState) (strat strat2 : Strategy) (a b : ℕ)
    (hagree : ∀ ts pd st, strat ts pd st = strat2 ts pd st ∨
      (strat ts pd st = none ∧ strat2 ts pd st = some [])) :
    (run_backtest month s strat a b).equity_curve.map (fun pt => pt.timestamp) =
      simTimestamps s.historical_data a b ∧
    run_backtest month s strat a b = run_backtest month s strat2 a b := by
  constructor
  · show (runSteps strat (resetState s)
      (simTimestamps s.historical_data a b)).equity_curve.map
        (fun pt => pt.timestamp) = _
    rw [runSteps_equity_timestamps]
    rfl
  · unfold run_backtest
    simp only [runSteps_strat_agree strat strat2 hagree]

/-- Witness for C6: a callback raising at timestamp 3 produces the same
result as one that places no orders there. -/
theorem callback_exception_tolerated_witness :
    run_backtest (fun t => t)
      { initial_capital := 1000, commission_rate := 0, slippage_rate := 0
        historical_data := [], current_capital := 1000, positions := []
        orders := [], equity_curve := [], positions_history := []
        daily_returns := [] }
      (fun ts _ _ => if ts = 3 then none else some []) 0 10 =
    run_backtest (fun t => t)
      { initial_capital := 1000, commission_rate := 0, slippage_rate := 0
        historical_data := [], current_capital := 1000, positions := []
        orders := [], equity_curve := [], positions_history := []
        daily_returns := [] }
      (fun _ _ _ => some []) 0 10 :=
  (callback_exception_tolerated (fun t => t)
    { initial_capital := 1000, commission_rate := 0, slippage_rate := 0
      historical_data := [], current_capital := 1000, positions := []
      orders := [], equity_curve := [], positions_history := []
      daily_returns := [] }
    (fun ts _ _ => if ts = 3 then none else some [])
    (fun _ _ _ => some []) 0 10
    (by
      intro ts pd st
      by_cases h : ts = 3
      · exact Or.inr ⟨by simp [h], rfl⟩
      · exact Or.inl (by simp [h]))).2

/-- C8: `run_backtest` is deterministic and reads none of the leftover
mutable state: two engines with the same configuration and the same
loaded data — but arbitrary differing cash, positions, orders, equity
curves and return lists — produce identical final run states (hence
identical daily-return sequences, from which every metric is computed)
and identical `BacktestResult`s. -/
theorem run_backtest_deterministic (month : ℕ → ℕ)
    (s1 s2 : EngineState) (strat : Strategy) (a b : ℕ)
    (hic : s1.initial_capital = s2.initial_capital)
    (hcr : s1.commission_rate = s2.commission_rate)
    (hsr : s1.slippage_rate = s2.slippage_rate)
    (hd : s1.historical_data = s2.historical_data) :
    runSteps strat (resetState s1) (simTimestamps s1.historical_data a b) =
      runSteps strat (resetState s2) (simTimestamps s2.historical_data a b) ∧
    run_backtest month s1 strat a b = run_backtest month s2 strat a b := by
  have hreset : resetState s1 = resetState s2 := by
    cases s1
    cases s2
    simp_all [resetState]
  constructor
  · rw [hreset, hd]
  · unfold run_backtest
    rw [hreset, hd, hic]

/-- Witness for C8: an engine carrying leftover state from a previous
run produces the same result as a fresh engine with the same
configuration. -/
theorem run_backtest_deterministic_witness :
    run_backtest (fun t => t)
      { initial_capital := 1000, commission_rate := 1/100, slippage_rate := 1/200
        historical_data := [("A", [(1, { open_ := 10, high := 11, low := 9
                                         close := 10, volume := 5 })])]
        current_capital := 77
        positions := [("A", { symbol := "A", quantity := 4, avg_price := 9
                              unrealized_pnl := 1, realized_pnl := 2
                              market_value := 40 })]
        orders := [{ timestamp := 0, symbol := "A", side := OrderSide.buy
                     order_type := OrderType.market, quantity := 1 }]
        equity_curve := [{ timestamp := 0, portfolio_value := 99, cash := 50
                           market_value := 49, realized_pnl := 0
                           unrealized_pnl := 0, total_pnl := 0 }]
        positions_history := [], daily_returns := [3] }
      (fun _ _ _ => none) 0 10 =
    run_backtest (fun t => t)
      { initial_capital := 1000, commission_rate := 1/100, slippage_rate := 1/200
        historical_data := [("A", [(1, { open_ := 10, high := 11, low := 9
                                         close := 10, volume := 5 })])]
        current_capital := 1000, positions := [], orders := []
        equity_curve := [], positions_history := [], daily_returns := [] }
      (fun _ _ _ => none) 0 10 :=
  (run_backtest_deterministic (fun t => t)
    { initial_capital := 1000, commission_rate := 1/100, slippage_rate := 1/200
      historical_data := [("A", [(1, { open_ := 10, high := 11, low := 9
                                       close := 10, volume := 5 })])]
      current_capital := 77
      positions := [("A", { symbol := "A", quantity := 4, avg_price := 9
                            unrealized_pnl := 1, realized_pnl := 2
                            market_value := 40 })]
      orders := [{ timestamp := 0, symbol := "A", side := OrderSide.buy
                   order_type := OrderType.market, quantity := 1 }]
      equity_curve := [{ timestamp := 0, portfolio_value := 99, cash := 50
                         market_value := 49, realized_pnl := 0
                         unrealized_pnl := 0, total_pnl := 0 }]
      positions_history := [], daily_returns := [3] }
    { initial_capital := 1000, commission_rate := 1/100, slippage_rate := 1/200
      historical_data := [("A", [(1, { open_ := 10, high := 11, low := 9
                                       close := 10, volume := 5 })])]
      current_capital := 1000, positions := [], orders := []
      equity_curve := [], positions_history := [], daily_returns := [] }
    (fun _ _ _ => none) 0 10 rfl rfl rfl rfl).2

/-- An entry of an updated positions dict is the written entry or an old
entry. -/
theorem mem_setPos (sym : String) (pos : BacktestPosition) :
    ∀ (l : List (String × BacktestPosition)) (e : String × BacktestPosition),
      e ∈ setPos l sym pos → e = (sym, pos) ∨ e ∈ l := by
  intro l
  induction l with
  | nil =>
    intro e he
    left
    simpa [setPos] using he
  | cons x rest ih =>
    intro e he
    by_cases hx : x.1 == sym
    · rw [setPos, if_pos hx] at he
      rcases List.mem_cons.mp he with h | h
      · exact Or.inl h
      · exact Or.inr (List.mem_cons_of_mem _ h)
    · rw [setPos, if_neg hx] at he
      rcases List.mem_cons.mp he with h | h
      · exact Or.inr (h ▸ List.mem_cons_self _ _)
      · rcases ih e h with h2 | h2
        · exact Or.inl h2
        · exact Or.inr (List.mem_cons_of_mem _ h2)

/-- A successful positions lookup returns the payload of a stored
entry. -/
theorem lookupPos_mem (l : List (String × BacktestPosition)) (sym : String)
    (pos : BacktestPosition) (h : lookupPos l sym = some pos) :
    ∃ e ∈ l, e.2 = pos := by
  unfold lookupPos at h
  rcases hf : l.find? (fun e => e.1 == sym) with _ | e
  · rw [hf] at h; exact Option.noConfusion h
  · rw [hf] at h
    refine ⟨e, List.mem_of_find?_eq_some hf, ?_⟩
    simpa using h

/-- Buying into a flat-or-long position yields a positive quantity. -/
theorem updatePositionRecord_buy_quantity (p : BacktestPosition) (δ : ℤ)
    (price : ℚ) (hδ : 0 < δ) (hp : 0 ≤ p.quantity) :
    (updatePositionRecord p δ price).quantity = p.quantity + δ := by
  simp only [updatePositionRecord, markRecord_quantity, if_pos hδ, if_pos hp]

/-- Selling no more than a long position holds reduces its quantity by
the sold amount. -/
theorem updatePositionRecord_sell_quantity (p : BacktestPosition) (δ : ℤ)
    (price : ℚ) (hδ : 0 < δ) (hp : δ ≤ p.quantity) :
    (updatePositionRecord p (-δ) price).quantity = p.quantity - δ := by
  have h1 : ¬ (0 < -δ) := by omega
  have h2 : 0 < p.quantity := by omega
  have h3 : |(-δ)| ≤ p.quantity := by
    rw [abs_neg, abs_of_pos hδ]; exact hp
  simp only [updatePositionRecord, markRecord_quantity, if_neg h1, if_pos h2,
    if_pos h3]
  rw [abs_neg, abs_of_pos hδ]

/-- A fill of a positive-quantity order keeps every position quantity
nonnegative and does not change the order's quantity. -/
theorem execute_order_preserves_nonneg
    (commission_rate slippage_rate cap : ℚ)
    (positions : List (String × BacktestPosition)) (o : BacktestOrder)
    (cp hp lp : ℚ) (o' : BacktestOrder) (cap' : ℚ)
    (pos' : List (String × BacktestPosition))
    (hq : 0 < o.quantity)
    (hinv : ∀ e ∈ positions, 0 ≤ e.2.quantity)
    (h : execute_order commission_rate slippage_rate cap positions o cp hp lp =
      some (o', cap', pos')) :
    (∀ e ∈ pos', 0 ≤ e.2.quantity) ∧ o'.quantity = o.quantity := by
  unfold execute_order at h
  split at h
  · exact Option.noConfusion h
  · rcases hpx : execPrice slippage_rate o cp hp lp with _ | px
    · rw [hpx] at h; exact Option.noConfusion h
    rw [hpx] at h
    rcases hside : o.side with _ | _
    · -- buy
      rw [hside] at h
      simp only at h
      split at h
      · exact Option.noConfusion h
      · simp only [Option.some.injEq, Prod.mk.injEq] at h
        obtain ⟨ho', -, hpos'⟩ := h
        subst ho' hpos'
        refine ⟨?_, rfl⟩
        intro e he
        unfold update_position at he
        rcases mem_setPos _ _ _ _ he with h | h
        · subst h
          dsimp only
          have h0 : 0 ≤ ((lookupPos positions o.symbol).getD
              { symbol := o.symbol, quantity := 0, avg_price := 0
                unrealized_pnl := 0, realized_pnl := 0
                market_value := 0 }).quantity := by
            rcases hl : lookupPos positions o.symbol with _ | q0
            · simp
            · obtain ⟨e0, he0, hpe⟩ := lookupPos_mem _ _ _ hl
              simpa [hpe] using hinv e0 he0
          rw [updatePositionRecord_buy_quantity _ _ _ hq h0]
          omega
        · exact hinv e h
    · -- sell
      rw [hside] at h
      simp only at h
      rcases hl : lookupPos positions o.symbol with _ | p0
      · rw [hl] at h; exact Option.noConfusion h
      rw [hl] at h
      simp only at h
      split at h
      · exact Option.noConfusion h
      · rename_i hqty
        simp only [Option.some.injEq, Prod.mk.injEq] at h
        obtain ⟨ho', -, hpos'⟩ := h
        subst ho' hpos'
        refine ⟨?_, rfl⟩
        intro e he
        unfold update_position at he
        rcases mem_setPos _ _ _ _ he with h | h
        · subst h
          dsimp only
          have hple : o.quantity ≤ ((lookupPos positions o.symbol).getD
              { symbol := o.symbol, quantity := 0, avg_price := 0
                unrealized_pnl := 0, realized_pnl := 0
                market_value := 0 }).quantity := by
            rw [hl]
            simpa using (by omega : o.quantity ≤ p0.quantity)
          rw [updatePositionRecord_sell_quantity _ _ _ hq hple]
          omega
        · exact hinv e h

/-- The fill pass preserves order-quantity positivity and position
nonnegativity. -/
theorem executePendingOrders_preserves
    (commission_rate slippage_rate : ℚ) (ts : ℕ)
    (price_data : List (String × Bar)) :
    ∀ (orders : List BacktestOrder) (cap : ℚ)
      (positions : List (String × BacktestPosition)),
      (∀ o ∈ orders, 0 < o.quantity) →
      (∀ e ∈ positions, 0 ≤ e.2.quantity) →
      (∀ o ∈ (executePendingOrders commission_rate slippage_rate ts price_data
          cap positions orders).2.2, 0 < o.quantity) ∧
      (∀ e ∈ (executePendingOrders commission_rate slippage_rate ts price_data
          cap positions orders).2.1, 0 ≤ e.2.quantity) := by
  intro orders
  induction orders with
  | nil =>
    intro cap positions ho hp
    exact ⟨by simp [executePendingOrders],
      by simpa [executePendingOrders] using hp⟩
  | cons o rest ih =>
    intro cap positions ho hp
    have ho_head : 0 < o.quantity := ho o (List.mem_cons_self _ _)
    have ho_rest : ∀ o2 ∈ rest, 0 < o2.quantity :=
      fun o2 h2 => ho o2 (List.mem_cons_of_mem _ h2)
    simp only [executePendingOrders]
    rcases hstep : (if fillEligible o ts price_data then
        match lookupBar price_data o.symbol with
        | some bar =>
          match execute_order commission_rate slippage_rate cap positions o
              bar.close bar.high bar.low with
          | some r => r
          | none => (o, cap, positions)
        | none => (o, cap, positions)
      else (o, cap, positions)) with ⟨o1, cap1, pos1⟩
    have hkey : 0 < o1.quantity ∧ ∀ e ∈ pos1, 0 ≤ e.2.quantity := by
      by_cases helig : fillEligible o ts price_data
      · rw [if_pos helig] at hstep
        rcases hb : lookupBar price_data o.symbol with _ | bar
        · rw [hb] at hstep
          simp only [Prod.mk.injEq] at hstep
          obtain ⟨h1, -, h3⟩ := hstep
          subst h1 h3
          exact ⟨ho_head, hp⟩
        · rw [hb] at hstep
          simp only at hstep
          rcases hex : execute_order commission_rate slippage_rate cap
              positions o bar.close bar.high bar.low with _ | r
          · rw [hex] at hstep
            simp only [Prod.mk.injEq] at hstep
            obtain ⟨h1, -, h3⟩ := hstep
            subst h1 h3
            exact ⟨ho_head, hp⟩
          · rw [hex] at hstep
            simp only at hstep
            obtain ⟨hpres, hqeq⟩ := execute_order_preserves_nonneg
              commission_rate slippage_rate cap positions o
              bar.close bar.high bar.low r.1 r.2.1 r.2.2 ho_head hp
              (by rw [hex])
            rw [hstep] at hpres hqeq
            exact ⟨by rw [hqeq]; exact ho_head, by simpa using hpres⟩
      · rw [if_neg helig] at hstep
        simp only [Prod.mk.injEq] at hstep
        obtain ⟨h1, -, h3⟩ := hstep
        subst h1 h3
        exact ⟨ho_head, hp⟩
    rw [hstep]
    dsimp only
    obtain ⟨hrest1, hrest2⟩ := ih cap1 pos1 ho_rest hkey.2
    refine ⟨?_, hrest2⟩
    intro o2 h2
    rcases List.mem_cons.mp h2 with h | h
    · exact h ▸ hkey.1
    · exact hrest1 o2 h

/-- The mark-to-market fold of the equity tracker does not change any
position quantity. -/
theorem markTotals_preserves (prices : List (String × ℚ)) :
    ∀ (l : List (String × BacktestPosition))
      (acc : List (String × BacktestPosition) × ℚ × ℚ × ℚ),
      (∀ e ∈ acc.1, 0 ≤ e.2.quantity) →
      (∀ e ∈ l, 0 ≤ e.2.quantity) →
      ∀ e ∈ (l.foldl (markStep prices) acc).1, 0 ≤ e.2.quantity := by
  intro l
  induction l with
  | nil => intro acc hacc _ e he; exact hacc e he
  | cons x rest ih =>
    intro acc hacc hl e he
    rw [List.foldl_cons] at he
    have hx : 0 ≤ x.2.quantity := hl x (List.mem_cons_self _ _)
    refine ih _ ?_ (fun q hq => hl q (List.mem_cons_of_mem _ hq)) e he
    intro q hq
    unfold markStep at hq
    rcases hpr : lookupPrice prices x.1 with _ | cp
    · rw [hpr] at hq
      dsimp only at hq
      rcases List.mem_append.mp hq with h | h
      · exact hacc q h
      · simp only [List.mem_singleton] at h
        subst h
        exact hx
    · rw [hpr] at hq
      dsimp only at hq
      rcases List.mem_append.mp hq with h | h
      · exact hacc q h
      · simp only [List.mem_singleton] at h
        subst h
        dsimp only
        split
        · exact hx
        · split
          · exact hx
          · exact hx

/-- The equity snapshot preserves the long-only invariant. -/
theorem update_portfolio_value_preserves (s : EngineState) (ts : ℕ)
    (prices : List (String × ℚ)) (h : LongOnly s) :
    LongOnly (update_portfolio_value s ts prices) := by
  obtain ⟨ho, hp⟩ := h
  refine ⟨ho, ?_⟩
  intro e he
  exact markTotals_preserves prices s.positions ([], 0, 0, 0)
    (by simp) hp e he

/-- The fill phase preserves the long-only invariant. -/
theorem fillsApplied_preserves (s : EngineState) (ts : ℕ) (h : LongOnly s) :
    LongOnly (fillsApplied s ts) := by
  obtain ⟨ho, hp⟩ := h
  have h2 := executePendingOrders_preserves s.commission_rate s.slippage_rate ts
    (collectBars s.historical_data ts) s.orders s.current_capital s.positions
    ho hp
  exact ⟨h2.1, h2.2⟩

/-- Placing a positive-quantity order preserves the long-only
invariant. -/
theorem place_order_preserves (s : EngineState) (r : OrderRequest)
    (hq : 0 < r.quantity) (h : LongOnly s) : LongOnly (place_order s r) := by
  obtain ⟨ho, hp⟩ := h
  refine ⟨?_, hp⟩
  intro o hmem
  rcases List.mem_append.mp hmem with hmem | hmem
  · exact ho o hmem
  · simp only [List.mem_singleton] at hmem
    subst hmem
    exact hq

/-- A callback placing only positive-quantity orders preserves the
long-only invariant. -/
theorem foldl_place_order_preserves :
    ∀ (reqs : List OrderRequest) (s : EngineState), LongOnly s →
      (∀ r ∈ reqs, 0 < r.quantity) → LongOnly (reqs.foldl place_order s) := by
  intro reqs
  induction reqs with
  | nil => intro s h _; exact h
  | cons r rest ih =>
    intro s h hr
    rw [List.foldl_cons]
    exact ih _ (place_order_preserves s r (hr r (List.mem_cons_self _ _)) h)
      (fun q hq => hr q (List.mem_cons_of_mem _ hq))

/-- A full simulation step preserves the long-only invariant. -/
theorem runStep_preserves (strat : Strategy) (s : EngineState) (ts : ℕ)
    (hstrat : ∀ t pd st reqs, strat t pd st = some reqs →
      ∀ r ∈ reqs, 0 < r.quantity)
    (h : LongOnly s) : LongOnly (runStep strat s ts) := by
  have h2 : LongOnly (afterFills s ts) :=
    update_portfolio_value_preserves _ _ _ (fillsApplied_preserves s ts h)
  unfold runStep
  rcases hres : strat ts (collectBars s.historical_data ts) (afterFills s ts)
    with _ | reqs
  · simpa [hres] using h2
  · simp only [hres]
    exact foldl_place_order_preserves reqs _ h2 (hstrat ts _ _ _ hres)

/-- C10: under the precondition that every placed order has positive
quantity, every state reachable through the engine's operations is
long-only — all stored orders have positive quantity and every position
quantity is `≥ 0` (no short position is ever created) — and from such a
state a SELL attempted while the symbol's position is flat or short
never fills. -/
theorem reachable_positions_nonneg (s : EngineState) (h : Reachable s) :
    LongOnly s ∧
    (∀ (o : BacktestOrder) (cp hp lp cap : ℚ) (pos : BacktestPosition),
      o ∈ s.orders → o.side = OrderSide.sell →
      lookupPos s.positions o.symbol = some pos → pos.quantity ≤ 0 →
      execute_order s.commission_rate s.slippage_rate cap s.positions o
        cp hp lp = none) := by
  have key : LongOnly s := by
    induction h with
    | reset s0 => exact ⟨by simp [resetState], by simp [resetState]⟩
    | place s0 r hs hq ih => exact place_order_preserves s0 r hq ih
    | step s0 strat ts hs hstrat ih => exact runStep_preserves strat s0 ts hstrat ih
  refine ⟨key, ?_⟩
  intro o cp hp lp cap pos hmem hside hlook hq
  have hoq : 0 < o.quantity := key.1 o hmem
  unfold execute_order
  split
  · rfl
  · rcases hpx : execPrice s.slippage_rate o cp hp lp with _ | px
    · rfl
    · rw [hside]
      simp only
      rw [hlook]
      simp only [if_pos (by omega : pos.quantity < o.quantity)]

/-- Witness for C10: in the reachable state obtained by resetting and
placing a BUY of 2, the stored order indeed has positive quantity. -/
theorem reachable_positions_nonneg_witness :
    0 < (mkOrder { timestamp := 1, symbol := "A", side := OrderSide.buy
                   quantity := 2 }).quantity :=
  (reachable_positions_nonneg _
    (Reachable.place _
      { timestamp := 1, symbol := "A", side := OrderSide.buy, quantity := 2 }
      (Reachable.reset
        { initial_capital := 1000, commission_rate := 0, slippage_rate := 0
          historical_data := [], current_capital := 1000, positions := []
          orders := [], equity_curve := [], positions_history := []
          daily_returns := [] })
      (by norm_num))).1.1
    (mkOrder { timestamp := 1, symbol := "A", side := OrderSide.buy
               quantity := 2 })
    (by simp [place_order, resetState])

end AlfaTrading
